import Mathlib

/-!
Shallow embedding of the usage-accumulation and enablement-policy loop of
`src/users.js` (function `registerUserRoutes`): the accumulator store
(`usage-store.json`), the per-user reconciliation of raw traffic counters
(`accumulateUsageAsync`, lines 115-153), user-store normalization
(`baseLoadUsers`, lines 154-164), snapshot enrichment and the enable policy
(`aggregate`, lines 165-197), persistence of enabled flags
(`persistEnabledFlags`, lines 57-69), and the mutation endpoints
`POST /api/users/:username/reset-quota` and `POST /api/users/:username/enable`.

JS numbers for byte counters are modelled as `Nat` (the stats source reports
non-negative integer counters), quotas as `Option ℚ` (`none` = the stored
`quota` is not a number), expiry timestamps as `Option Int` (milliseconds;
`none` = empty/absent expiry string), and GB arithmetic as exact rationals.
File reads that can throw are modelled as `Option` contents: `none` means
`readJson` throws for that file.
-/

namespace CustomXrayUI

/-- One entry of `usage-store.json`: `{ accumBytes, lastRawBytes }`. -/
structure UsageEntry where
  accumBytes : Nat
  lastRawBytes : Nat
deriving Repr, DecidableEq

/-- The accumulator store: a JSON object keyed by user uuid.  JS objects have
unique keys; we model them as association lists where insertion replaces the
first (hence only) binding. -/
abbrev UsageStore := List (String × UsageEntry)

/-- `store[key]` (JS property lookup). -/
def lookupStore (s : UsageStore) (k : String) : Option UsageEntry :=
  (s.find? (fun p => p.1 == k)).map (fun p => p.2)

/-- `store[key] = e` (JS property assignment: replace existing binding, else
append a new one). -/
def insertStore : UsageStore → String → UsageEntry → UsageStore
  | [], k, e => [(k, e)]
  | p :: rest, k, e => if p.1 == k then (k, e) :: rest else p :: insertStore rest k e

/-- `accumBytes` recorded for key `k`, defaulting to 0 when absent. -/
def accumOf (s : UsageStore) (k : String) : Nat :=
  match lookupStore s k with
  | some e => e.accumBytes
  | none => 0

/-- A persisted user record (`users.json`).  `id := none` models a missing /
non-finite `id`; empty strings model missing `displayName` / `statKey`. -/
structure UserRec where
  id : Option Nat
  username : String
  uuid : String
  displayName : String
  statKey : String
  quota : Option ℚ
  expiry : Option Int
  enabled : Bool
  usageAccumBytes : Nat
  lastRawBytes : Nat
deriving Repr, DecidableEq

/-- `u.statKey || u.displayName || u.username || u.uuid` (users.js line 128). -/
def statKeyOf (u : UserRec) : String :=
  if u.statKey ≠ "" then u.statKey
  else if u.displayName ≠ "" then u.displayName
  else if u.username ≠ "" then u.username
  else u.uuid

/-- users.js lines 141-145: fold one observed raw counter value into the
previous store entry for a key.  Returns the new entry and whether
`storeChanged` was set by this user. -/
def reconcileEntry (prevOpt : Option UsageEntry) (rawBytes : Nat) : UsageEntry × Bool :=
  match prevOpt with
  | none => ({ accumBytes := rawBytes, lastRawBytes := rawBytes }, true)
  | some prev =>
    if prev.lastRawBytes ≤ rawBytes then
      if prev.lastRawBytes < rawBytes then
        ({ accumBytes := prev.accumBytes + (rawBytes - prev.lastRawBytes),
           lastRawBytes := rawBytes }, true)
      else (prev, false)
    else ({ accumBytes := prev.accumBytes + rawBytes, lastRawBytes := rawBytes }, true)

/-- The raw byte count observed for a user this cycle: the stats query result
for its stat key, with failure/timeout collapsing to 0 (lines 129-140). -/
def rawOf (stats : String → Option Nat) (u : UserRec) : Nat :=
  (stats (statKeyOf u)).getD 0

/-- The worker loop of `accumulateUsageAsync` (lines 123-149): each user's
store update is an atomic synchronous block, so the fan-out is modelled as a
sequential fold.  Returns the final store, the `storeChanged` flag, and the
users with `usageAccumBytes` / `lastRawBytes` written back. -/
def accumulateUsers (stats : String → Option Nat) :
    UsageStore → Bool → List UserRec → UsageStore × Bool × List UserRec
  | store, changed, [] => (store, changed, [])
  | store, changed, u :: rest =>
    let rc := reconcileEntry (lookupStore store u.uuid) (rawOf stats u)
    let u1 := { u with usageAccumBytes := rc.1.accumBytes, lastRawBytes := rc.1.lastRawBytes }
    let r := accumulateUsers stats (insertStore store u.uuid rc.1) (changed || rc.2) rest
    (r.1, r.2.1, u1 :: r.2.2)

/-- `users.reduce((m,u)=> Number.isFinite(u.id)?Math.max(m,u.id):m, 0)`
(users.js line 157). -/
def initMaxId (users : List UserRec) : Nat :=
  users.foldl (fun m u => match u.id with | some i => max m i | none => m) 0

/-- The normalization loop of `baseLoadUsers` (lines 158-161): assign fresh
ids to records without one and default missing stat keys, tracking
`needPersist`. -/
def normStep : List UserRec → Nat → Bool → List UserRec × Nat × Bool
  | [], m, need => ([], m, need)
  | u :: rest, m, need =>
    let step1 : UserRec × Nat × Bool :=
      match u.id with
      | some _ => (u, m, need)
      | none => ({ u with id := some (m + 1) }, m + 1, true)
    let u1 := step1.1
    let m1 := step1.2.1
    let need1 := step1.2.2
    let step2 : UserRec × Bool :=
      if u1.statKey = "" then
        ({ u1 with statKey :=
             if u1.displayName ≠ "" then u1.displayName
             else if u1.username ≠ "" then u1.username
             else u1.uuid }, true)
      else (u1, need1)
    let r := normStep rest m1 (step2.2)
    (step2.1 :: r.1, r.2.1, r.2.2)

/-- `baseLoadUsers` minus the file I/O: returns the normalized list and
whether `needPersist` was set (in which case the user store is rewritten). -/
def normalizeUsers (users : List UserRec) : List UserRec × Bool :=
  let r := normStep users (initMaxId users) false
  (r.1, r.2.2)

/-- `+(q*100 rounded)/100`, modelling `+x.toFixed(2)` on exact rationals. -/
def round2 (q : ℚ) : ℚ := ((round (q * 100) : ℤ) : ℚ) / 100

/-- users.js line 176: `u.expiry ? Math.max(0, Math.ceil((new Date(u.expiry) - now)/86400000)) : -1`. -/
def daysLeftOf (now : Int) (expiry : Option Int) : Int :=
  match expiry with
  | none => -1
  | some e => max 0 ⌈(((e : ℚ) - (now : ℚ)) / 86400000)⌉

/-- users.js line 177: `(typeof u.quota === 'number' && u.quota !== -1) ? u.quota : -1`,
with the `-1` sentinel rendered as `none`. -/
def quotaGBOf (quota : Option ℚ) : Option ℚ :=
  match quota with
  | some q => if q = -1 then none else some q
  | none => none

/-- users.js line 181: the quota/expiry breach condition that forces
`enabled = false`. -/
def breached (now : Int) (u : UserRec) : Bool :=
  let usagePreciseGB : ℚ := (u.usageAccumBytes : ℚ) / 1073741824
  (match quotaGBOf u.quota with
   | some q => decide (usagePreciseGB ≥ q)
   | none => false)
  || (u.expiry.isSome && decide (daysLeftOf now u.expiry ≤ 0))

/-- One enriched snapshot row (users.js lines 173-188).  The presentation-only
`vlessUrl` string carries no policy content and is not modelled. -/
structure Enriched where
  user : UserRec
  bandwidthUsage : ℚ
  bandwidthUsageRaw : ℚ
  remainingBandwidth : ℚ
  remainingBandwidthRaw : ℚ
  daysLeft : Int
deriving Repr, DecidableEq

/-- users.js lines 173-188: derive the snapshot row and the computed
`enabled` flag for one user. -/
def enrichUser (now : Int) (u : UserRec) : Enriched :=
  let usagePreciseGB : ℚ := (u.usageAccumBytes : ℚ) / 1073741824
  let usageGB := round2 usagePreciseGB
  let dl := daysLeftOf now u.expiry
  let remainingPreciseGB : ℚ :=
    match quotaGBOf u.quota with
    | none => -1
    | some q => max 0 (q - usagePreciseGB)
  let remainingGB : ℚ :=
    match quotaGBOf u.quota with
    | none => -1
    | some _ => round2 remainingPreciseGB
  let en := u.enabled && !(breached now u)
  { user := { u with enabled := en },
    bandwidthUsage := usageGB,
    bandwidthUsageRaw := usagePreciseGB,
    remainingBandwidth := remainingGB,
    remainingBandwidthRaw := remainingPreciseGB,
    daysLeft := dl }

/-- `new Map(enriched.map(u=>[u.id,u.enabled])).get(i)`: later entries
overwrite earlier ones, so the lookup returns the last matching id. -/
def lookupEnabled (enriched : List Enriched) (i : Option Nat) : Option Bool :=
  (enriched.reverse.find? (fun e => e.user.id == i)).map (fun e => e.user.enabled)

/-- The mutation loop of `persistEnabledFlags` (lines 63-66): copy computed
enabled flags onto the freshly loaded records, by id. -/
def applyEnabledList (enriched : List Enriched) (orig : List UserRec) : List UserRec :=
  orig.map (fun u =>
    match lookupEnabled enriched u.id with
    | some b => if b ≠ u.enabled then { u with enabled := b } else u
    | none => u)

/-- The `changed` flag of `persistEnabledFlags`: some record's stored enabled
differs from the computed one. -/
def enabledChanged (enriched : List Enriched) (orig : List UserRec) : Bool :=
  orig.any (fun u =>
    match lookupEnabled enriched u.id with
    | some b => b != u.enabled
    | none => false)

/-- The mutable module state of users.js: the two JSON files (`none` models a
file whose read/parse throws), the cached snapshot, its timestamp, and the
in-flight flag. -/
structure World where
  usersFile : Option (List UserRec)
  usageFile : Option UsageStore
  cachedEnriched : List Enriched
  cacheStamp : Int
  isAggregating : Bool
deriving Repr, DecidableEq

/-- `persistEnabledFlags` (users.js lines 58-69): reload the user store
through `baseLoadUsers` (which may itself persist id/statKey normalization),
fold computed enabled flags in by id, and rewrite the store only when some
flag changed.  A throwing `baseLoadUsers` is swallowed silently. -/
def persistEnabledFlags (enriched : List Enriched) (w : World) : World :=
  match w.usersFile with
  | none => w
  | some users0 =>
    let norm := normalizeUsers users0
    let w1 := if norm.2 then { w with usersFile := some norm.1 } else w
    if enabledChanged enriched norm.1 then
      { w1 with usersFile := some (applyEnabledList enriched norm.1) }
    else w1

/-- `aggregate` (users.js lines 165-197) as a pure state transformer over one
complete cycle: drop the request when a cycle is in flight; abort (leaving all
state intact) when the user store read throws; fall back to an empty store
when the accumulator store read throws (line 119); reconcile every user,
persist the store only when some entry changed, enrich, persist enabled
flags, and swap in the new snapshot. -/
def aggregate (stats : String → Option Nat) (now : Int) (w : World) : World :=
  if w.isAggregating then w
  else
    match w.usersFile with
    | none => w
    | some users0 =>
      let norm := normalizeUsers users0
      let w1 := if norm.2 then { w with usersFile := some norm.1 } else w
      let store0 := w1.usageFile.getD []
      let r := accumulateUsers stats store0 false norm.1
      let w2 := if r.2.1 then { w1 with usageFile := some r.1 } else w1
      let enriched := (r.2.2).map (enrichUser now)
      let w3 := persistEnabledFlags enriched w2
      { w3 with cachedEnriched := enriched, cacheStamp := now }

/-- Mutate the first record with the given username (JS `users.find` returns
the first match and the handlers mutate that object in place). -/
def setFirst (username : String) (f : UserRec → UserRec) : List UserRec → List UserRec
  | [] => []
  | u :: rest => if u.username == username then f u :: rest else u :: setFirst username f rest

/-- The fold of cached accumulator values into in-memory user records
performed by the lightweight `accumulateUsage` (users.js lines 72-82). -/
def foldStoreIntoUsers (store : UsageStore) (users : List UserRec) : List UserRec :=
  users.map (fun u =>
    match lookupStore store u.uuid with
    | some rec => { u with usageAccumBytes := rec.accumBytes, lastRawBytes := rec.lastRawBytes }
    | none => u)

/-- `POST /api/users/:username/reset-quota` (users.js lines 384-416): zero the
found user's in-memory usage fields, zero the persisted accumulator entry when
one exists, and rewrite the user store. -/
def resetQuota (username : String) (w : World) : World :=
  match w.usersFile with
  | none => w
  | some users =>
    match users.find? (fun u => u.username == username) with
    | none => w
    | some u =>
      let users1 := setFirst username
        (fun v => { v with usageAccumBytes := 0, lastRawBytes := 0 }) users
      let store := w.usageFile.getD []
      let w1 :=
        if (lookupStore store u.uuid).isSome then
          { w with usageFile := some (insertStore store u.uuid ⟨0, 0⟩) }
        else w
      { w1 with usersFile := some users1 }

/-- `POST /api/users/:username/enable` (users.js lines 448-467): fold cached
usage into all records, set the found user's `enabled := true`, rewrite the
user store. -/
def enableUser (username : String) (w : World) : World :=
  match w.usersFile with
  | none => w
  | some users =>
    match users.find? (fun u => u.username == username) with
    | none => w
    | some _ =>
      let users1 := foldStoreIntoUsers (w.usageFile.getD []) users
      let users2 := setFirst username (fun v => { v with enabled := true }) users1
      { w with usersFile := some users2 }

/-! ### Helper lemmas about the store -/

theorem lookupStore_cons (p : String × UsageEntry) (s : UsageStore) (k : String) :
    lookupStore (p :: s) k = if p.1 == k then some p.2 else lookupStore s k := by
  simp only [lookupStore, List.find?]
  rcases h : (p.1 == k) with _ | _ <;> simp [h]

theorem lookupStore_insert_self (s : UsageStore) (k : String) (e : UsageEntry) :
    lookupStore (insertStore s k e) k = some e := by
  induction s with
  | nil => simp [insertStore, lookupStore_cons, lookupStore]
  | cons p rest ih =>
    by_cases h : p.1 == k
    · simp [insertStore, h, lookupStore_cons]
    · simp [insertStore, h, lookupStore_cons, ih]

theorem lookupStore_insert_ne (s : UsageStore) (k k' : String) (e : UsageEntry)
    (h : k' ≠ k) : lookupStore (insertStore s k e) k' = lookupStore s k' := by
  induction s with
  | nil =>
    simp [insertStore, lookupStore_cons, lookupStore]
    intro hk; exact absurd hk.symm h
  | cons p rest ih =>
    by_cases hp : p.1 == k
    · have hp' : p.1 = k := by simpa using hp
      have hk : k ≠ k' := fun hk => h hk.symm
      simp [insertStore, hp, lookupStore_cons, hp', hk]
    · simp [insertStore, hp, lookupStore_cons, ih]

theorem insertStore_self (s : UsageStore) (k : String) (e : UsageEntry)
    (h : lookupStore s k = some e) : insertStore s k e = s := by
  induction s with
  | nil => simp [lookupStore] at h
  | cons p rest ih =>
    rw [lookupStore_cons] at h
    by_cases hp : p.1 == k
    · have hp' : p.1 = k := by simpa using hp
      simp [hp] at h
      simp [insertStore, hp, ← hp', ← h]
    · simp [hp] at h
      simp [insertStore, hp, ih h]

/-! ### Helper lemmas about reconciliation and the aggregation fold -/

/-- Accumulated bytes of an optional store entry, defaulting to 0. -/
def accumOfOpt (o : Option UsageEntry) : Nat := (o.map (fun e => e.accumBytes)).getD 0

theorem accumOf_eq (s : UsageStore) (k : String) :
    accumOf s k = accumOfOpt (lookupStore s k) := by
  unfold accumOf accumOfOpt
  rcases lookupStore s k with _ | e <;> simp

theorem reconcileEntry_accum_le (o : Option UsageEntry) (r : Nat) :
    accumOfOpt o ≤ ((reconcileEntry o r).1).accumBytes := by
  rcases o with _ | e
  · simp [accumOfOpt, reconcileEntry]
  · by_cases h1 : e.lastRawBytes ≤ r
    · by_cases h2 : e.lastRawBytes < r
      · simp [accumOfOpt, reconcileEntry, h1, h2]
      · simp [accumOfOpt, reconcileEntry, h1, h2]
    · simp [accumOfOpt, reconcileEntry, h1]

theorem accumulateUsers_accum_le (stats : String → Option Nat) (users : List UserRec) :
    ∀ (s : UsageStore) (c : Bool) (k : String),
      accumOf s k ≤ accumOf (accumulateUsers stats s c users).1 k := by
  induction users with
  | nil => intro s c k; simp [accumulateUsers]
  | cons u rest ih =>
    intro s c k
    have hstep : accumOf s k ≤
        accumOf (insertStore s u.uuid (reconcileEntry (lookupStore s u.uuid) (rawOf stats u)).1) k := by
      by_cases hk : k = u.uuid
      · subst hk
        rw [accumOf_eq, accumOf_eq, lookupStore_insert_self]
        simpa [accumOfOpt] using reconcileEntry_accum_le (lookupStore s u.uuid) (rawOf stats u)
      · rw [accumOf_eq, accumOf_eq, lookupStore_insert_ne _ _ _ _ hk]
    calc accumOf s k
        ≤ accumOf (insertStore s u.uuid (reconcileEntry (lookupStore s u.uuid) (rawOf stats u)).1) k := hstep
      _ ≤ accumOf (accumulateUsers stats s c (u :: rest)).1 k := by
          simpa [accumulateUsers] using
            ih (insertStore s u.uuid (reconcileEntry (lookupStore s u.uuid) (rawOf stats u)).1)
              (c || (reconcileEntry (lookupStore s u.uuid) (rawOf stats u)).2) k

theorem accumulateUsers_accum_zero (stats : String → Option Nat) (users : List UserRec)
    (k : String) :
    ∀ (s : UsageStore) (c : Bool), (∀ u ∈ users, u.uuid = k → rawOf stats u = 0) →
      accumOf (accumulateUsers stats s c users).1 k = accumOf s k := by
  induction users with
  | nil => intro s c _; simp [accumulateUsers]
  | cons u rest ih =>
    intro s c h
    have hstep : accumOf (insertStore s u.uuid (reconcileEntry (lookupStore s u.uuid) (rawOf stats u)).1) k
        = accumOf s k := by
      by_cases hk : k = u.uuid
      · subst hk
        have hraw : rawOf stats u = 0 := h u (List.mem_cons_self u rest) rfl
        rw [accumOf_eq, accumOf_eq, lookupStore_insert_self, hraw]
        rcases he : lookupStore s u.uuid with _ | e
        · simp [reconcileEntry, accumOfOpt]
        · by_cases h1 : e.lastRawBytes ≤ 0
          · simp [reconcileEntry, h1, accumOfOpt, Nat.lt_irrefl, Nat.eq_zero_of_le_zero h1]
          · simp [reconcileEntry, h1, accumOfOpt]
      · rw [accumOf_eq, accumOf_eq, lookupStore_insert_ne _ _ _ _ hk]
    have htail := ih (insertStore s u.uuid (reconcileEntry (lookupStore s u.uuid) (rawOf stats u)).1)
      (c || (reconcileEntry (lookupStore s u.uuid) (rawOf stats u)).2)
      (fun v hv hvk => h v (List.mem_cons_of_mem u hv) hvk)
    simpa [accumulateUsers, hstep] using htail

theorem accumulateUsers_noop (stats : String → Option Nat) (users : List UserRec) :
    ∀ (s : UsageStore),
      (∀ u ∈ users, ∃ e, lookupStore s u.uuid = some e ∧ rawOf stats u = e.lastRawBytes) →
      (accumulateUsers stats s false users).1 = s
      ∧ (accumulateUsers stats s false users).2.1 = false := by
  induction users with
  | nil => intro s _; simp [accumulateUsers]
  | cons u rest ih =>
    intro s h
    obtain ⟨e, he, hr⟩ := h u (List.mem_cons_self u rest)
    have hrc : reconcileEntry (lookupStore s u.uuid) (rawOf stats u) = (e, false) := by
      rw [he, hr]; simp [reconcileEntry]
    have hins : insertStore s u.uuid e = s := insertStore_self s u.uuid e he
    have htail := ih s (fun v hv => h v (List.mem_cons_of_mem u hv))
    simp only [accumulateUsers, hrc, hins, Bool.or_false]
    exact htail

theorem accumulateUsers_congr (stats stats' : String → Option Nat) (users : List UserRec) :
    ∀ (s : UsageStore) (c : Bool), (∀ u ∈ users, rawOf stats u = rawOf stats' u) →
      accumulateUsers stats s c users = accumulateUsers stats' s c users := by
  induction users with
  | nil => intro s c _; simp [accumulateUsers]
  | cons u rest ih =>
    intro s c h
    have hr : rawOf stats u = rawOf stats' u := h u (List.mem_cons_self u rest)
    simp only [accumulateUsers, hr]
    rw [ih _ _ (fun v hv => h v (List.mem_cons_of_mem u hv))]

/-- Relation between an input user record and its copy produced by the
aggregation fold: only the usage fields may differ. -/
def sameExceptUsage (u v : UserRec) : Prop :=
  v = { u with usageAccumBytes := v.usageAccumBytes, lastRawBytes := v.lastRawBytes }

/-- Relation between a stored user record and its persisted update: only
`enabled` may differ. -/
def sameExceptEnabled (u v : UserRec) : Prop :=
  v = { u with enabled := v.enabled }

theorem accumulateUsers_shape (stats : String → Option Nat) (users : List UserRec) :
    ∀ (s : UsageStore) (c : Bool),
      List.Forall₂ sameExceptUsage users (accumulateUsers stats s c users).2.2 := by
  induction users with
  | nil => intro s c; simp [accumulateUsers]
  | cons u rest ih =>
    intro s c
    simp only [accumulateUsers]
    exact List.Forall₂.cons rfl (ih _ _)

/-! ### Helper lemmas about normalization and enabled-flag persistence -/

theorem normStep_noop (users : List UserRec)
    (h : ∀ u ∈ users, u.id.isSome ∧ u.statKey ≠ "") :
    ∀ (m : Nat) (need : Bool), normStep users m need = (users, m, need) := by
  induction users with
  | nil => intro m need; simp [normStep]
  | cons u rest ih =>
    intro m need
    obtain ⟨hid, hsk⟩ := h u (List.mem_cons_self u rest)
    obtain ⟨i, hi⟩ := Option.isSome_iff_exists.mp hid
    simp only [normStep, hi, hsk]
    rw [ih (fun v hv => h v (List.mem_cons_of_mem u hv))]
    simp [← hi]

theorem normalizeUsers_noop (users : List UserRec)
    (h : ∀ u ∈ users, u.id.isSome ∧ u.statKey ≠ "") :
    normalizeUsers users = (users, false) := by
  simp [normalizeUsers, normStep_noop users h]

theorem forall₂_ids {es : List Enriched} {xs : List UserRec}
    (h : List.Forall₂ (fun e u => e.user.id = u.id) es xs) :
    es.map (fun e => e.user.id) = xs.map (fun u => u.id) := by
  induction h with
  | nil => rfl
  | cons h₁ _ ih => simp [ih, h₁]

theorem applyEnabled_main (es : List Enriched) (xs : List UserRec)
    (hrel : List.Forall₂ (fun e u => e.user.id = u.id) es xs)
    (hnodup : (xs.map (fun u => u.id)).Nodup) :
    applyEnabledList es xs
      = List.zipWith (fun u e => { u with enabled := e.user.enabled }) xs es
    ∧ (enabledChanged es xs = false →
        List.zipWith (fun u e => { u with enabled := e.user.enabled }) xs es = xs) := by
  induction hrel with
  | nil => exact ⟨rfl, fun _ => rfl⟩
  | @cons e u es' xs' he hrest ih =>
    rw [List.map_cons, List.nodup_cons] at hnodup
    obtain ⟨hnin, htail⟩ := hnodup
    have hids := forall₂_ids hrest
    have hA : lookupEnabled (e :: es') u.id = some e.user.enabled := by
      unfold lookupEnabled
      rw [List.reverse_cons, List.find?_append]
      have hnone : es'.reverse.find? (fun x => x.user.id == u.id) = none := by
        rw [List.find?_eq_none]
        intro x hx
        simp only [beq_iff_eq]
        intro hxid
        apply hnin
        have : x.user.id ∈ es'.map (fun e => e.user.id) :=
          List.mem_map_of_mem _ (List.mem_reverse.mp hx)
        rw [hids] at this
        rwa [hxid] at this
      rw [hnone, Option.none_or]
      simp [List.find?, he]
    have hB : ∀ x ∈ xs', lookupEnabled (e :: es') x.id = lookupEnabled es' x.id := by
      intro x hx
      unfold lookupEnabled
      rw [List.reverse_cons, List.find?_append]
      have hne : List.find? (fun y => y.user.id == x.id) [e] = none := by
        simp only [List.find?]
        have : ¬ (e.user.id == x.id) = true := by
          simp only [beq_iff_eq, he]
          intro hux
          exact hnin (hux ▸ List.mem_map_of_mem _ hx)
        simp [this]
      rw [hne, Option.or_none]
    have ihm := ih htail
    constructor
    · show applyEnabledList (e :: es') (u :: xs') = _
      unfold applyEnabledList
      rw [List.map_cons, List.zipWith_cons_cons]
      congr 1
      · simp only [hA]
        by_cases hbe : e.user.enabled = u.enabled
        · have hne : ¬ (e.user.enabled ≠ u.enabled) := fun hh => hh hbe
          rw [if_neg hne, hbe]
        · rw [if_pos hbe]
      · rw [List.map_congr_left (fun x hx => by rw [hB x hx])]
        exact ihm.1
    · intro hch
      show List.zipWith _ (u :: xs') (e :: es') = u :: xs'
      unfold enabledChanged at hch
      rw [List.any_cons, Bool.or_eq_false_iff] at hch
      obtain ⟨hhead, htl⟩ := hch
      rw [hA] at hhead
      have heq : e.user.enabled = u.enabled := by
        simpa using hhead
      have hch' : enabledChanged es' xs' = false := by
        unfold enabledChanged
        rw [List.any_eq_false]
        intro x hx
        have := (List.any_eq_false.mp htl) x hx
        rwa [hB x hx] at this
      rw [List.zipWith_cons_cons, heq, ihm.2 hch']

/-- The value of one completed aggregation cycle on a world whose user store
holds an already-normalized `users` list (helper for unfolding `aggregate`). -/
def cycleResult (stats : String → Option Nat) (now : Int) (w : World)
    (users : List UserRec) : World :=
  let r := accumulateUsers stats (w.usageFile.getD []) false users
  let enriched := (r.2.2).map (enrichUser now)
  let w2 : World := if r.2.1 then { w with usageFile := some r.1 } else w
  let w3 : World :=
    if enabledChanged enriched users
    then { w2 with usersFile := some (applyEnabledList enriched users) } else w2
  { w3 with cachedEnriched := enriched, cacheStamp := now }

theorem aggregate_eq (stats : String → Option Nat) (now : Int) (w : World)
    (users : List UserRec)
    (hflag : w.isAggregating = false) (hu : w.usersFile = some users)
    (hnorm : ∀ u ∈ users, u.id.isSome ∧ u.statKey ≠ "") :
    aggregate stats now w = cycleResult stats now w users := by
  unfold aggregate cycleResult
  rw [hflag, hu]
  simp only [Bool.false_eq_true, if_false, normalizeUsers_noop users hnorm]
  by_cases hr : (accumulateUsers stats (w.usageFile.getD []) false users).2.1 <;>
    simp [persistEnabledFlags, hu, hflag, normalizeUsers_noop users hnorm, hr]

theorem persistEnabledFlags_parts (enriched : List Enriched) (w : World) :
    (persistEnabledFlags enriched w).usageFile = w.usageFile
    ∧ (persistEnabledFlags enriched w).cachedEnriched = w.cachedEnriched
    ∧ (persistEnabledFlags enriched w).cacheStamp = w.cacheStamp
    ∧ (persistEnabledFlags enriched w).isAggregating = w.isAggregating := by
  obtain ⟨uf, gf, ce, cs, ag⟩ := w
  rcases uf with _ | users0
  · exact ⟨rfl, rfl, rfl, rfl⟩
  · unfold persistEnabledFlags
    dsimp only
    split <;> split <;> exact ⟨rfl, rfl, rfl, rfl⟩

/-- Monotonicity of the persisted accumulator across one cycle, for every key
and every initial world. -/
theorem aggregate_accum_mono (stats : String → Option Nat) (now : Int) (w : World)
    (k : String) :
    accumOf (w.usageFile.getD []) k ≤ accumOf ((aggregate stats now w).usageFile.getD []) k := by
  obtain ⟨uf, gf, ce, cs, ag⟩ := w
  rcases ag with _ | _
  · rcases uf with _ | users0
    · simp [aggregate]
    · unfold aggregate
      dsimp only
      rw [(persistEnabledFlags_parts _ _).1]
      by_cases hr : (accumulateUsers stats
          ((if (normalizeUsers users0).2 then
              { usersFile := some (normalizeUsers users0).1, usageFile := gf,
                cachedEnriched := ce, cacheStamp := cs, isAggregating := false }
            else
              { usersFile := some users0, usageFile := gf,
                cachedEnriched := ce, cacheStamp := cs, isAggregating := false } : World).usageFile.getD [])
          false (normalizeUsers users0).1).2.1
      · have hgf : ((if (normalizeUsers users0).2 then
              { usersFile := some (normalizeUsers users0).1, usageFile := gf,
                cachedEnriched := ce, cacheStamp := cs, isAggregating := false }
            else
              { usersFile := some users0, usageFile := gf,
                cachedEnriched := ce, cacheStamp := cs, isAggregating := false } : World).usageFile) = gf := by
          split <;> rfl
        rw [hgf] at hr ⊢
        simp only [hr, if_true]
        split <;>
          simp [accumulateUsers_accum_le stats (normalizeUsers users0).1 (gf.getD []) false k]
      · have hgf : ((if (normalizeUsers users0).2 then
              { usersFile := some (normalizeUsers users0).1, usageFile := gf,
                cachedEnriched := ce, cacheStamp := cs, isAggregating := false }
            else
              { usersFile := some users0, usageFile := gf,
                cachedEnriched := ce, cacheStamp := cs, isAggregating := false } : World).usageFile) = gf := by
          split <;> rfl
        rw [hgf] at hr
        simp only [hr, Bool.false_eq_true, if_false]
        split <;> simp
  · simp [aggregate]

theorem reconcileEntry_unchanged (o : Option UsageEntry) (r : Nat)
    (h : (reconcileEntry o r).2 = false) : o = some (reconcileEntry o r).1 := by
  rcases o with _ | e
  · simp [reconcileEntry] at h
  · by_cases h1 : e.lastRawBytes ≤ r
    · by_cases h2 : e.lastRawBytes < r
      · simp [reconcileEntry, h1, h2] at h
      · simp [reconcileEntry, h1, h2]
    · simp [reconcileEntry, h1] at h

/-- Complete description of one aggregation cycle on a world holding a single
already-normalized user. -/
theorem aggregate_one (stats : String → Option Nat) (now : Int) (u : UserRec)
    (s : UsageStore) (c : List Enriched) (t : Int)
    (hid : u.id.isSome = true) (hsk : u.statKey ≠ "") :
    aggregate stats now
      { usersFile := some [u], usageFile := some s, cachedEnriched := c,
        cacheStamp := t, isAggregating := false }
      = { usersFile := some [{ u with enabled := u.enabled &&
            !(breached now { u with
                usageAccumBytes := (reconcileEntry (lookupStore s u.uuid) (rawOf stats u)).1.accumBytes,
                lastRawBytes := (reconcileEntry (lookupStore s u.uuid) (rawOf stats u)).1.lastRawBytes }) }],
          usageFile := some (insertStore s u.uuid (reconcileEntry (lookupStore s u.uuid) (rawOf stats u)).1),
          cachedEnriched := [enrichUser now { u with
                usageAccumBytes := (reconcileEntry (lookupStore s u.uuid) (rawOf stats u)).1.accumBytes,
                lastRawBytes := (reconcileEntry (lookupStore s u.uuid) (rawOf stats u)).1.lastRawBytes }],
          cacheStamp := now, isAggregating := false } := by
  set w : World :=
    { usersFile := some [u], usageFile := some s, cachedEnriched := c,
      cacheStamp := t, isAggregating := false } with hw
  have hwu : w.usersFile = some [u] := rfl
  have hnorm : ∀ v ∈ [u], v.id.isSome = true ∧ v.statKey ≠ "" := by
    intro v hv
    rw [List.mem_singleton] at hv
    subst hv
    exact ⟨hid, hsk⟩
  rw [aggregate_eq stats now w [u] rfl hwu hnorm]
  unfold cycleResult
  have hstore : w.usageFile.getD [] = s := rfl
  rw [hstore]
  set rc := reconcileEntry (lookupStore s u.uuid) (rawOf stats u) with hrc
  set u1 : UserRec :=
    { u with usageAccumBytes := rc.1.accumBytes, lastRawBytes := rc.1.lastRawBytes } with hu1
  set en := u.enabled && !(breached now u1) with hendef
  have hacc : accumulateUsers stats s false [u] = (insertStore s u.uuid rc.1, rc.2, [u1]) := by
    simp [accumulateUsers, hrc, hu1]
  rw [hacc]
  simp only [List.map_cons, List.map_nil]
  have hid1 : (enrichUser now u1).user.id = u.id := rfl
  have hen1 : (enrichUser now u1).user.enabled = en := rfl
  have hlook : lookupEnabled [enrichUser now u1] u.id = some en := by
    simp [lookupEnabled, List.find?, hid1, hen1]
  by_cases hch : rc.2 = true
  · simp only [hch, if_true]
    by_cases he : en = u.enabled
    · have hchg : enabledChanged [enrichUser now u1] [u] = false := by
        simp [enabledChanged, hlook, he]
      simp only [hchg, Bool.false_eq_true, if_false]
      have hue : ({ u with enabled := en } : UserRec) = u := by rw [he]
      rw [hue]
    · have hchg : enabledChanged [enrichUser now u1] [u] = true := by
        simp [enabledChanged, hlook, bne_iff_ne]
        exact he
      have happ : applyEnabledList [enrichUser now u1] [u] = [{ u with enabled := en }] := by
        simp [applyEnabledList, hlook, he]
      simp only [hchg, if_true, happ]
  · have hch' : rc.2 = false := Bool.eq_false_iff.mpr hch
    have hins : insertStore s u.uuid rc.1 = s :=
      insertStore_self _ _ _ (reconcileEntry_unchanged _ _ hch')
    simp only [hch, Bool.false_eq_true, if_false]
    by_cases he : en = u.enabled
    · have hchg : enabledChanged [enrichUser now u1] [u] = false := by
        simp [enabledChanged, hlook, he]
      simp only [hchg, Bool.false_eq_true, if_false]
      have hue : ({ u with enabled := en } : UserRec) = u := by rw [he]
      rw [hue, hins]
    · have hchg : enabledChanged [enrichUser now u1] [u] = true := by
        simp [enabledChanged, hlook, bne_iff_ne]
        exact he
      have happ : applyEnabledList [enrichUser now u1] [u] = [{ u with enabled := en }] := by
        simp [applyEnabledList, hlook, he]
      simp only [hchg, if_true, happ]
      rw [hins]

/-! ### Concrete worlds used in witnesses and counterexamples -/

/-- A concrete well-formed user record. -/
def u0 : UserRec :=
  { id := some 1, username := "alice", uuid := "uuid-1", displayName := "",
    statKey := "alice", quota := none, expiry := none, enabled := true,
    usageAccumBytes := 0, lastRawBytes := 0 }

/-- A stats source answering `r` for u0's stat key and failing elsewhere. -/
def statsFor (r : Nat) : String → Option Nat :=
  fun k => if k == "alice" then some r else none

/-- A world holding u0 and accumulator store `s`. -/
def mkW (s : UsageStore) : World :=
  { usersFile := some [u0], usageFile := some s, cachedEnriched := [],
    cacheStamp := 0, isAggregating := false }

/-- A world whose accumulator store read throws. -/
def wNoUsage : World :=
  { usersFile := some [u0], usageFile := none, cachedEnriched := [],
    cacheStamp := 0, isAggregating := false }

/-- A world whose user store read throws. -/
def wNoUsers : World :=
  { usersFile := none, usageFile := some [("uuid-1", ⟨7, 7⟩)],
    cachedEnriched := [], cacheStamp := 0, isAggregating := false }

/-- A world with a cycle already in flight. -/
def wBusy : World :=
  { usersFile := some [u0], usageFile := some [], cachedEnriched := [],
    cacheStamp := 0, isAggregating := true }

/-! ### Claim theorems -/

/-- C2 (confirmed): for a key with an existing accumulator entry
`{accumBytes := a, lastRawBytes := l}`, one reconciliation step with observed
`rawBytes = r` yields `{a + (r - l), r}` when `r ≥ l` and `{a + r, r}` when
`r < l` (counter reset). -/
theorem c2_reconcile_existing (a l r : Nat) :
    (reconcileEntry (some { accumBytes := a, lastRawBytes := l }) r).1
      = if l ≤ r then { accumBytes := a + (r - l), lastRawBytes := r }
        else { accumBytes := a + r, lastRawBytes := r } := by
  by_cases h1 : l ≤ r
  · by_cases h2 : l < r
    · simp [reconcileEntry, h1, h2]
    · have hlr : l = r := Nat.le_antisymm h1 (Nat.le_of_not_lt h2)
      subst hlr
      simp [reconcileEntry]
  · simp [reconcileEntry, h1]

/-- C7 (confirmed): a cycle requested while one is in flight returns
immediately and changes nothing: neither store, nor the snapshot, nor the
in-flight flag. -/
theorem c7_inflight_noop (stats : String → Option Nat) (now : Int) (w : World)
    (h : w.isAggregating = true) : aggregate stats now w = w := by
  unfold aggregate
  rw [h]
  simp

theorem c7_inflight_noop_witness :
    wBusy.isAggregating = true ∧ aggregate (statsFor 5) 0 wBusy = wBusy :=
  ⟨rfl, c7_inflight_noop (statsFor 5) 0 wBusy rfl⟩

/-- C4 (confirmed): `accumBytes` for any key never decreases across an
aggregation cycle, and the explicit reset-quota endpoint sets the found
user's store entry to `{accumBytes := 0, lastRawBytes := 0}`. -/
theorem c4_accum_monotone_reset (stats : String → Option Nat) (now : Int) (w : World)
    (k : String) (username : String) (users : List UserRec) (u : UserRec)
    (hu : w.usersFile = some users)
    (hfind : users.find? (fun v => v.username == username) = some u)
    (hentry : (lookupStore (w.usageFile.getD []) u.uuid).isSome = true) :
    accumOf (w.usageFile.getD []) k ≤ accumOf ((aggregate stats now w).usageFile.getD []) k
    ∧ lookupStore ((resetQuota username w).usageFile.getD []) u.uuid
        = some { accumBytes := 0, lastRawBytes := 0 } := by
  refine ⟨aggregate_accum_mono stats now w k, ?_⟩
  simp only [resetQuota, hu, hfind]
  simp only [hentry, if_true]
  simp only [Option.getD_some]
  exact lookupStore_insert_self _ _ _

theorem c4_accum_monotone_reset_witness :
    (mkW [("uuid-1", ⟨5, 5⟩)]).usersFile = some [u0]
    ∧ List.find? (fun v => v.username == "alice") [u0] = some u0
    ∧ (lookupStore ((mkW [("uuid-1", ⟨5, 5⟩)]).usageFile.getD []) u0.uuid).isSome = true
    ∧ accumOf ((mkW [("uuid-1", ⟨5, 5⟩)]).usageFile.getD []) "uuid-1"
        ≤ accumOf ((aggregate (statsFor 9) 0 (mkW [("uuid-1", ⟨5, 5⟩)])).usageFile.getD []) "uuid-1"
    ∧ lookupStore ((resetQuota "alice" (mkW [("uuid-1", ⟨5, 5⟩)])).usageFile.getD []) u0.uuid
        = some { accumBytes := 0, lastRawBytes := 0 } := by
  have h := c4_accum_monotone_reset (statsFor 9) 0 (mkW [("uuid-1", ⟨5, 5⟩)])
    "uuid-1" "alice" [u0] u0 rfl (by decide) (by decide)
  exact ⟨rfl, by decide, by decide, h.1, h.2⟩

/-- C5 amended (user-store half): when the user store read/parse throws, the
cycle aborts leaving the whole world unchanged. -/
theorem c5_user_store_failure_aborts (stats : String → Option Nat) (now : Int)
    (w : World) (hu : w.usersFile = none) : aggregate stats now w = w := by
  unfold aggregate
  rw [hu]
  by_cases h : w.isAggregating = true <;> simp [h]

theorem c5_user_store_failure_aborts_witness :
    wNoUsers.usersFile = none ∧ aggregate (statsFor 3) 0 wNoUsers = wNoUsers :=
  ⟨rfl, c5_user_store_failure_aborts (statsFor 3) 0 wNoUsers rfl⟩

/-- C5 counterexample: when the accumulator store read throws
(`usageFile = none`) the cycle does NOT abort: it proceeds on an empty store,
writes a re-initialized accumulator store, and replaces the snapshot. -/
theorem c5_counterexample :
    wNoUsage.usageFile = none
    ∧ (aggregate (statsFor 10000) 0 wNoUsage).usageFile
        = some [("uuid-1", { accumBytes := 10000, lastRawBytes := 10000 })]
    ∧ (aggregate (statsFor 10000) 0 wNoUsage).cachedEnriched ≠ wNoUsage.cachedEnriched := by
  refine ⟨rfl, by decide, by decide⟩

/-- C8 (confirmed): when every user's key already has a store entry whose
`lastRawBytes` equals the raw value observed this cycle, the fold reports no
change (`storeChanged = false`, so no store write happens), every entry is
left exactly as it was, and the cycle leaves the persisted accumulator store
untouched. -/
theorem c8_noop_cycle (stats : String → Option Nat) (now : Int) (w : World)
    (users : List UserRec)
    (hflag : w.isAggregating = false) (hu : w.usersFile = some users)
    (hnorm : ∀ u ∈ users, u.id.isSome = true ∧ u.statKey ≠ "")
    (hsame : ∀ u ∈ users, ∃ e, lookupStore (w.usageFile.getD []) u.uuid = some e
        ∧ rawOf stats u = e.lastRawBytes) :
    (accumulateUsers stats (w.usageFile.getD []) false users).1 = w.usageFile.getD []
    ∧ (accumulateUsers stats (w.usageFile.getD []) false users).2.1 = false
    ∧ (aggregate stats now w).usageFile = w.usageFile := by
  obtain ⟨h1, h2⟩ := accumulateUsers_noop stats users (w.usageFile.getD []) hsame
  refine ⟨h1, h2, ?_⟩
  rw [aggregate_eq stats now w users hflag hu hnorm]
  unfold cycleResult
  simp only [h2, Bool.false_eq_true, if_false]
  split <;> rfl

/-- The world used by the C8 witness: one user whose entry already matches
the observed raw counter. -/
def w8 : World := mkW [("uuid-1", ⟨42, 7⟩)]

theorem c8_noop_cycle_witness :
    (∀ u ∈ [u0], u.id.isSome = true ∧ u.statKey ≠ "")
    ∧ (∀ u ∈ [u0], ∃ e, lookupStore (w8.usageFile.getD []) u.uuid = some e
        ∧ rawOf (statsFor 7) u = e.lastRawBytes)
    ∧ (accumulateUsers (statsFor 7) (w8.usageFile.getD []) false [u0]).1 = w8.usageFile.getD []
    ∧ (accumulateUsers (statsFor 7) (w8.usageFile.getD []) false [u0]).2.1 = false
    ∧ (aggregate (statsFor 7) 0 w8).usageFile = w8.usageFile := by
  have hsame : ∀ u ∈ [u0], ∃ e, lookupStore (w8.usageFile.getD []) u.uuid = some e
      ∧ rawOf (statsFor 7) u = e.lastRawBytes := by
    intro u hu
    rw [List.mem_singleton] at hu
    subst hu
    exact ⟨⟨42, 7⟩, by decide, by decide⟩
  have h := c8_noop_cycle (statsFor 7) 0 w8 [u0] rfl rfl (by decide) hsame
  exact ⟨by decide, hsame, h.1, h.2.1, h.2.2⟩

/-- C6 (confirmed): a failed/timed-out stats query for user A (stats source
returns `none` for A's key) makes the cycle behave exactly as if A's raw
reading were 0: the whole cycle equals the cycle run with A's key answered
`some 0`, A's accumulated bytes are unchanged, and the published snapshot
still covers every user. -/
theorem c6_fault_isolation (f : String → Option Nat) (now : Int) (w : World)
    (users : List UserRec) (A : UserRec)
    (hu : w.usersFile = some users) (hflag : w.isAggregating = false)
    (hf : f (statKeyOf A) = none)
    (huuid : ∀ u ∈ users, u.uuid = A.uuid → statKeyOf u = statKeyOf A)
    (hnorm : ∀ u ∈ users, u.id.isSome = true ∧ u.statKey ≠ "") :
    aggregate f now w
      = aggregate (fun k => if k = statKeyOf A then some 0 else f k) now w
    ∧ accumOf ((aggregate f now w).usageFile.getD []) A.uuid
        = accumOf (w.usageFile.getD []) A.uuid
    ∧ (aggregate f now w).cachedEnriched.length = users.length := by
  have hcongr : ∀ u ∈ users, rawOf f u
      = rawOf (fun k => if k = statKeyOf A then some 0 else f k) u := by
    intro u _
    unfold rawOf
    by_cases hk : statKeyOf u = statKeyOf A
    · rw [hk, hf]
      simp
    · simp [hk]
  have hzero : ∀ u ∈ users, u.uuid = A.uuid → rawOf f u = 0 := by
    intro u huu hid
    unfold rawOf
    rw [huuid u huu hid, hf]
    rfl
  refine ⟨?_, ?_, ?_⟩
  · rw [aggregate_eq f now w users hflag hu hnorm,
      aggregate_eq (fun k => if k = statKeyOf A then some 0 else f k) now w users hflag hu hnorm]
    unfold cycleResult
    rw [accumulateUsers_congr f (fun k => if k = statKeyOf A then some 0 else f k)
      users (w.usageFile.getD []) false hcongr]
  · rw [aggregate_eq f now w users hflag hu hnorm]
    unfold cycleResult
    by_cases hr : (accumulateUsers f (w.usageFile.getD []) false users).2.1 = true
    · simp only [hr, if_true]
      split <;>
        simp [accumulateUsers_accum_zero f users A.uuid (w.usageFile.getD []) false hzero]
    · simp only [hr, Bool.false_eq_true, if_false]
      split <;> rfl
  · rw [aggregate_eq f now w users hflag hu hnorm]
    unfold cycleResult
    dsimp only
    rw [List.length_map]
    exact ((accumulateUsers_shape f users (w.usageFile.getD []) false).length_eq).symm

/-- Second user for the C6 witness: their stats query succeeds. -/
def u1 : UserRec :=
  { id := some 2, username := "bob", uuid := "uuid-2", displayName := "",
    statKey := "bob", quota := none, expiry := none, enabled := true,
    usageAccumBytes := 0, lastRawBytes := 0 }

/-- Stats source for the C6 witness: fails for alice, answers 100 for bob. -/
def stats6 : String → Option Nat := fun k => if k == "bob" then some 100 else none

/-- World for the C6 witness. -/
def w6 : World :=
  { usersFile := some [u0, u1], usageFile := some [("uuid-1", ⟨3, 2⟩)],
    cachedEnriched := [], cacheStamp := 0, isAggregating := false }

theorem c6_fault_isolation_witness :
    stats6 (statKeyOf u0) = none
    ∧ (∀ u ∈ [u0, u1], u.uuid = u0.uuid → statKeyOf u = statKeyOf u0)
    ∧ aggregate stats6 0 w6
        = aggregate (fun k => if k = statKeyOf u0 then some 0 else stats6 k) 0 w6
    ∧ accumOf ((aggregate stats6 0 w6).usageFile.getD []) u0.uuid
        = accumOf (w6.usageFile.getD []) u0.uuid
    ∧ (aggregate stats6 0 w6).cachedEnriched.length = ([u0, u1] : List UserRec).length := by
  have h := c6_fault_isolation stats6 0 w6 [u0, u1] u0 rfl rfl (by decide)
    (by decide) (by decide)
  exact ⟨by decide, by decide, h.1, h.2.1, h.2.2⟩

theorem forall₂_enrich_ids (now : Int) {users vs : List UserRec}
    (h : List.Forall₂ sameExceptUsage users vs) :
    List.Forall₂ (fun e u => e.user.id = u.id) (vs.map (enrichUser now)) users := by
  induction h with
  | nil => exact List.Forall₂.nil
  | @cons a b l₁ l₂ h₁ h₂ ih =>
    refine List.Forall₂.cons ?_ ih
    rw [h₁]
    rfl

theorem zipWith_enrich_eq (now : Int) {users vs : List UserRec}
    (h : List.Forall₂ sameExceptUsage users vs) :
    List.zipWith (fun u e => { u with enabled := e.user.enabled })
        users (vs.map (enrichUser now))
      = List.zipWith (fun u v => { u with enabled := u.enabled && !(breached now v) })
        users vs := by
  induction h with
  | nil => rfl
  | @cons a b l₁ l₂ h₁ h₂ ih =>
    simp only [List.map_cons, List.zipWith_cons_cons, ih]
    have hb : (enrichUser now b).user.enabled = (b.enabled && !(breached now b)) := rfl
    have hba : b.enabled = a.enabled := by rw [h₁]
    rw [hb, hba]

/-- C3 (confirmed): after a completed cycle, each user's persisted enabled
flag equals `(previous enabled) AND NOT breached`, where `breached` is the
quota/expiry condition of users.js line 181 evaluated on the reconciled usage;
in particular the cycle only ever forces `enabled` from true to false. -/
theorem c3_enable_policy (stats : String → Option Nat) (now : Int) (w : World)
    (users : List UserRec)
    (hflag : w.isAggregating = false) (hu : w.usersFile = some users)
    (hnorm : ∀ u ∈ users, u.id.isSome = true ∧ u.statKey ≠ "")
    (hnodup : (users.map (fun u => u.id)).Nodup) :
    (aggregate stats now w).usersFile
      = some (List.zipWith
          (fun u v => { u with enabled := u.enabled && !(breached now v) })
          users (accumulateUsers stats (w.usageFile.getD []) false users).2.2) := by
  have hshape := accumulateUsers_shape stats users (w.usageFile.getD []) false
  have hrel := forall₂_enrich_ids now hshape
  obtain ⟨hmain1, hmain2⟩ := applyEnabled_main
    ((accumulateUsers stats (w.usageFile.getD []) false users).2.2.map (enrichUser now))
    users hrel hnodup
  have hzip := zipWith_enrich_eq now hshape
  rw [aggregate_eq stats now w users hflag hu hnorm]
  unfold cycleResult
  by_cases hch : enabledChanged
      ((accumulateUsers stats (w.usageFile.getD []) false users).2.2.map (enrichUser now))
      users = true
  · simp only [hch, if_true]
    rw [hmain1, hzip]
  · have hch' : enabledChanged
        ((accumulateUsers stats (w.usageFile.getD []) false users).2.2.map (enrichUser now))
        users = false := Bool.eq_false_iff.mpr hch
    simp only [hch', Bool.false_eq_true, if_false]
    have husers : List.zipWith
        (fun u v => { u with enabled := u.enabled && !(breached now v) })
        users (accumulateUsers stats (w.usageFile.getD []) false users).2.2 = users := by
      rw [← hzip]
      exact hmain2 hch'
    rw [husers]
    split <;> exact hu

/-- Third user for the C3 witness: quota 1 GB already exceeded by the stored
accumulator (2 GiB), so the cycle must force enabled to false. -/
def u2 : UserRec :=
  { id := some 3, username := "carol", uuid := "uuid-3", displayName := "",
    statKey := "carol", quota := some 1, expiry := none, enabled := true,
    usageAccumBytes := 0, lastRawBytes := 0 }

/-- World for the C3 witness. -/
def w3w : World :=
  { usersFile := some [u0, u2],
    usageFile := some [("uuid-3", ⟨2147483648, 2147483648⟩)],
    cachedEnriched := [], cacheStamp := 0, isAggregating := false }

/-- Stats source for the C3 witness. -/
def stats3 : String → Option Nat := fun k => if k == "carol" then some 2147483648 else none

theorem c3_enable_policy_witness :
    (∀ u ∈ [u0, u2], u.id.isSome = true ∧ u.statKey ≠ "")
    ∧ (([u0, u2] : List UserRec).map (fun u => u.id)).Nodup
    ∧ (aggregate stats3 0 w3w).usersFile
        = some (List.zipWith
            (fun u v => { u with enabled := u.enabled && !(breached 0 v) })
            [u0, u2] (accumulateUsers stats3 (w3w.usageFile.getD []) false [u0, u2]).2.2) := by
  exact ⟨by decide, by decide,
    c3_enable_policy stats3 0 w3w [u0, u2] rfl rfl (by decide) (by decide)⟩

theorem applyEnabledList_frame (es : List Enriched) (xs : List UserRec) :
    List.Forall₂ sameExceptEnabled xs (applyEnabledList es xs) := by
  induction xs with
  | nil => exact List.Forall₂.nil
  | cons u rest ih =>
    unfold applyEnabledList at ih ⊢
    rw [List.map_cons]
    refine List.Forall₂.cons ?_ ih
    unfold sameExceptEnabled
    rcases lookupEnabled es u.id with _ | b
    · rfl
    · dsimp only
      by_cases hb : b ≠ u.enabled
      · rw [if_pos hb]
      · rw [if_neg hb]

theorem sameExceptEnabled_ne {xs ys : List UserRec}
    (h : List.Forall₂ sameExceptEnabled xs ys) (hne : ys ≠ xs) :
    ∃ p ∈ xs.zip ys, p.1.enabled ≠ p.2.enabled := by
  induction h with
  | nil => exact absurd rfl hne
  | @cons a b l₁ l₂ h₁ h₂ ih =>
    by_cases hab : b = a
    · subst hab
      have hlt : l₂ ≠ l₁ := by
        intro he
        exact hne (by rw [he])
      obtain ⟨p, hp, hpe⟩ := ih hlt
      refine ⟨p, ?_, hpe⟩
      rw [List.zip_cons_cons]
      exact List.mem_cons_of_mem _ hp
    · refine ⟨(a, b), ?_, ?_⟩
      · rw [List.zip_cons_cons]
        exact List.mem_cons_self _ _
      · intro he
        apply hab
        rw [h₁, ← he]

/-- User with a missing statKey, exercising the `baseLoadUsers` normalization
write. -/
def uBad : UserRec :=
  { id := some 1, username := "bobby", uuid := "uuid-9", displayName := "",
    statKey := "", quota := none, expiry := none, enabled := true,
    usageAccumBytes := 0, lastRawBytes := 0 }

/-- World for the C9 counterexample. -/
def wBad : World :=
  { usersFile := some [uBad], usageFile := some [("uuid-9", ⟨0, 0⟩)],
    cachedEnriched := [], cacheStamp := 0, isAggregating := false }

/-- C9 counterexample: with a stored record lacking `statKey`, the cycle
rewrites the user store through the `baseLoadUsers` normalization, changing
the persisted `statKey` even though no user's `enabled` flag changed. -/
theorem c9_counterexample :
    (aggregate (fun _ => some 0) 0 wBad).usersFile
        = some [{ uBad with statKey := "bobby" }]
    ∧ (aggregate (fun _ => some 0) 0 wBad).usersFile ≠ wBad.usersFile
    ∧ ({ uBad with statKey := "bobby" } : UserRec).enabled = uBad.enabled :=
  ⟨by decide, by decide, rfl⟩

/-- C9 amended: provided every stored record already carries an id and a
statKey (so the `baseLoadUsers` normalization writes nothing), the cycle's
user-store write-back only ever touches `enabled`: same records in the same
order with every other field intact, and content changes only when some
user's enabled flag changed. -/
theorem c9_amended_frame (stats : String → Option Nat) (now : Int) (w : World)
    (users : List UserRec)
    (hflag : w.isAggregating = false) (hu : w.usersFile = some users)
    (hnorm : ∀ u ∈ users, u.id.isSome = true ∧ u.statKey ≠ "") :
    ∃ users', (aggregate stats now w).usersFile = some users'
      ∧ List.Forall₂ sameExceptEnabled users users'
      ∧ (users' ≠ users → ∃ p ∈ users.zip users', p.1.enabled ≠ p.2.enabled) := by
  rw [aggregate_eq stats now w users hflag hu hnorm]
  unfold cycleResult
  by_cases hch : enabledChanged
      ((accumulateUsers stats (w.usageFile.getD []) false users).2.2.map (enrichUser now))
      users = true
  · refine ⟨applyEnabledList
      ((accumulateUsers stats (w.usageFile.getD []) false users).2.2.map (enrichUser now))
      users, ?_, applyEnabledList_frame _ _, sameExceptEnabled_ne (applyEnabledList_frame _ _)⟩
    simp only [hch, if_true]
  · refine ⟨users, ?_, ?_, ?_⟩
    · simp only [Bool.eq_false_iff.mpr hch, Bool.false_eq_true, if_false]
      split <;> exact hu
    · exact List.forall₂_same.mpr (fun x _ => rfl)
    · intro hne
      exact absurd rfl hne

theorem c9_amended_frame_witness :
    (∀ u ∈ [u0], u.id.isSome = true ∧ u.statKey ≠ "")
    ∧ ∃ users', (aggregate (statsFor 5) 0 (mkW [])).usersFile = some users'
      ∧ List.Forall₂ sameExceptEnabled [u0] users'
      ∧ (users' ≠ [u0] →
          ∃ p ∈ ([u0] : List UserRec).zip users', p.1.enabled ≠ p.2.enabled) :=
  ⟨by decide, c9_amended_frame (statsFor 5) 0 (mkW []) [u0] rfl rfl (by decide)⟩

/-- Like `mkW` but with an arbitrary cached snapshot (worlds reached after
some cycles have already run). -/
def mkWC (s : UsageStore) (c : List Enriched) : World :=
  { usersFile := some [u0], usageFile := some s, cachedEnriched := c,
    cacheStamp := 0, isAggregating := false }

theorem aggregate_u0 (s : UsageStore) (c : List Enriched) (r : Nat) :
    aggregate (statsFor r) 0 (mkWC s c)
      = mkWC (insertStore s "uuid-1" (reconcileEntry (lookupStore s "uuid-1") r).1)
          [enrichUser 0 { u0 with
              usageAccumBytes := (reconcileEntry (lookupStore s "uuid-1") r).1.accumBytes,
              lastRawBytes := (reconcileEntry (lookupStore s "uuid-1") r).1.lastRawBytes }] := by
  exact aggregate_one (statsFor r) 0 u0 s c 0 rfl (by decide)

/-- Iterate whole aggregation cycles, one per successive raw counter
observation of u0's stat key. -/
def runCycles (raws : List Nat) (w : World) : World :=
  raws.foldl (fun w r => aggregate (statsFor r) 0 w) w

theorem runCycles_entry (raws : List Nat) :
    ∀ (x : Nat) (s : UsageStore) (c : List Enriched),
      lookupStore s "uuid-1" = some ⟨x, x⟩ →
      List.Chain' (fun a b => a ≤ b) (x :: raws) →
      lookupStore ((runCycles raws (mkWC s c)).usageFile.getD []) "uuid-1"
        = some ⟨raws.getLastD x, raws.getLastD x⟩ := by
  induction raws with
  | nil =>
    intro x s c hx _
    simpa [runCycles] using hx
  | cons r rest ih =>
    intro x s c hx hch
    rw [List.chain'_cons] at hch
    obtain ⟨hxr, hch'⟩ := hch
    have hrc1 : (reconcileEntry (lookupStore s "uuid-1") r).1 = ⟨r, r⟩ := by
      rw [hx]
      by_cases hlt : x < r
      · simp only [reconcileEntry, if_pos hxr, if_pos hlt]
        have : x + (r - x) = r := Nat.add_sub_cancel' hxr
        simp [this]
      · have hxe : x = r := Nat.le_antisymm hxr (Nat.le_of_not_lt hlt)
        subst hxe
        simp [reconcileEntry]
    have hnext : runCycles (r :: rest) (mkWC s c)
        = runCycles rest (aggregate (statsFor r) 0 (mkWC s c)) := rfl
    rw [hnext, aggregate_u0 s c r]
    have hlk : lookupStore
        (insertStore s "uuid-1" (reconcileEntry (lookupStore s "uuid-1") r).1) "uuid-1"
        = some ⟨r, r⟩ := by
      rw [lookupStore_insert_self, hrc1]
    have hres := ih r
      (insertStore s "uuid-1" (reconcileEntry (lookupStore s "uuid-1") r).1)
      [enrichUser 0 { u0 with
          usageAccumBytes := (reconcileEntry (lookupStore s "uuid-1") r).1.accumBytes,
          lastRawBytes := (reconcileEntry (lookupStore s "uuid-1") r).1.lastRawBytes }]
      hlk hch'
    rw [List.getLastD_cons]
    exact hres

/-- C1 counterexample: starting from an empty accumulator store, the very
first observation of rawBytes = 10000 leaves accumBytes = 10000 in the store,
not 0 — users.js line 142 initializes `accumBytes` to the observed raw value,
not to a zero-delta baseline. -/
theorem c1_counterexample :
    lookupStore ((aggregate (statsFor 10000) 0 (mkW [])).usageFile.getD []) u0.uuid
      = some { accumBytes := 10000, lastRawBytes := 10000 }
    ∧ (10000 : Nat) ≠ 0 :=
  ⟨by decide, by decide⟩

/-- C1 amended: starting with no store entry, after successive cycles
observing the monotone raw readings `r0 :: rest`, the user's entry is
`{accumBytes := rn, lastRawBytes := rn}` where `rn` is the last reading —
the full first reading is charged (baseline `accumBytes = r0` after the first
cycle), so the total equals `rn`, not `rn - r0`. -/
theorem c1_amended_accumulates_full (r0 : Nat) (rest : List Nat)
    (hmono : List.Chain' (fun a b => a ≤ b) (r0 :: rest)) :
    lookupStore ((runCycles (r0 :: rest) (mkW [])).usageFile.getD []) u0.uuid
      = some { accumBytes := rest.getLastD r0, lastRawBytes := rest.getLastD r0 } := by
  have hnext : runCycles (r0 :: rest) (mkW [])
      = runCycles rest (aggregate (statsFor r0) 0 (mkWC [] [])) := rfl
  rw [hnext, aggregate_u0 [] [] r0]
  refine runCycles_entry rest r0 _ _ ?_ hmono
  rw [lookupStore_insert_self]
  rfl

theorem c1_amended_accumulates_full_witness :
    List.Chain' (fun a b => a ≤ b) [5, 7]
    ∧ lookupStore ((runCycles [5, 7] (mkW [])).usageFile.getD []) u0.uuid
        = some { accumBytes := ([7] : List Nat).getLastD 5,
                 lastRawBytes := ([7] : List Nat).getLastD 5 } := by
  have hchain : List.Chain' (fun a b => a ≤ b) [5, 7] := by
    simp [List.chain'_cons, List.chain'_singleton]
  exact ⟨hchain, c1_amended_accumulates_full 5 [7] hchain⟩

/-- A user with a finite quota `q` (GB) for the C10 scenario. -/
def uq (q : ℚ) (b : Bool) : UserRec :=
  { id := some 1, username := "alice", uuid := "uuid-1", displayName := "",
    statKey := "alice", quota := some q, expiry := none, enabled := b,
    usageAccumBytes := 0, lastRawBytes := 0 }

/-- World for the C10 scenario: the accumulator store already records `a`
accumulated bytes (with `lastRawBytes = l`) for the user. -/
def wq (q : ℚ) (b : Bool) (a l : Nat) : World :=
  { usersFile := some [uq q b], usageFile := some [("uuid-1", ⟨a, l⟩)],
    cachedEnriched := [], cacheStamp := 0, isAggregating := false }

/-- The record persisted by the enable endpoint in the C10 scenario. -/
def uqE (q : ℚ) (a l : Nat) : UserRec :=
  { uq q true with usageAccumBytes := a, lastRawBytes := l }

/-- C10 (confirmed): for a user whose accumulated usage already meets or
exceeds a finite quota, POST /enable persists `enabled = true`, but the next
completed aggregation cycle persists `enabled = false` again — a manual
re-enable does not stick while the breach persists. -/
theorem c10_manual_enable_overridden (q : ℚ) (b : Bool) (a l : Nat)
    (stats : String → Option Nat) (now : Int)
    (hq : q ≠ -1) (hbreach : q ≤ (a : ℚ) / 1073741824) :
    (enableUser "alice" (wq q b a l)).usersFile = some [uqE q a l]
    ∧ (uqE q a l).enabled = true
    ∧ (aggregate stats now (enableUser "alice" (wq q b a l))).usersFile
        = some [{ uqE q a l with enabled := false }] := by
  have hen : enableUser "alice" (wq q b a l)
      = { usersFile := some [uqE q a l], usageFile := some [("uuid-1", ⟨a, l⟩)],
          cachedEnriched := [], cacheStamp := 0, isAggregating := false } := rfl
  refine ⟨by rw [hen], rfl, ?_⟩
  rw [hen, aggregate_one stats now (uqE q a l) [("uuid-1", ⟨a, l⟩)] [] 0 rfl
    (by show ("alice" : String) ≠ ""; decide)]
  have hlk : lookupStore [("uuid-1", ⟨a, l⟩)] (uqE q a l).uuid = some ⟨a, l⟩ := rfl
  have haccum : a ≤ (reconcileEntry (lookupStore [("uuid-1", ⟨a, l⟩)] (uqE q a l).uuid)
      (rawOf stats (uqE q a l))).1.accumBytes := by
    have h := reconcileEntry_accum_le (lookupStore [("uuid-1", ⟨a, l⟩)] (uqE q a l).uuid)
      (rawOf stats (uqE q a l))
    rw [hlk] at h
    simpa [accumOfOpt] using h
  have hle : q ≤ (((reconcileEntry (lookupStore [("uuid-1", ⟨a, l⟩)] (uqE q a l).uuid)
      (rawOf stats (uqE q a l))).1.accumBytes : ℚ) / 1073741824) := by
    refine le_trans hbreach ?_
    have hcast : ((a : ℚ))
        ≤ (((reconcileEntry (lookupStore [("uuid-1", ⟨a, l⟩)] (uqE q a l).uuid)
            (rawOf stats (uqE q a l))).1.accumBytes : ℚ)) := by
      exact_mod_cast haccum
    exact (div_le_div_iff_of_pos_right (by norm_num)).mpr hcast
  have hb : breached now { uqE q a l with
      usageAccumBytes := (reconcileEntry (lookupStore [("uuid-1", ⟨a, l⟩)] (uqE q a l).uuid)
        (rawOf stats (uqE q a l))).1.accumBytes,
      lastRawBytes := (reconcileEntry (lookupStore [("uuid-1", ⟨a, l⟩)] (uqE q a l).uuid)
        (rawOf stats (uqE q a l))).1.lastRawBytes } = true := by
    have hquota : (uqE q a l).quota = some q := rfl
    have hexp : (uqE q a l).expiry = (none : Option Int) := rfl
    simp [breached, quotaGBOf, hquota, hexp, hq, ge_iff_le, hle]
  simp only [hb]
  rfl

theorem c10_manual_enable_overridden_witness :
    ((1 : ℚ) ≠ -1)
    ∧ ((1 : ℚ) ≤ ((2147483648 : Nat) : ℚ) / 1073741824)
    ∧ (enableUser "alice" (wq 1 false 2147483648 0)).usersFile
        = some [uqE 1 2147483648 0]
    ∧ (uqE 1 2147483648 0).enabled = true
    ∧ (aggregate (fun _ => none) 0 (enableUser "alice" (wq 1 false 2147483648 0))).usersFile
        = some [{ uqE 1 2147483648 0 with enabled := false }] := by
  have h := c10_manual_enable_overridden 1 false 2147483648 0 (fun _ => none) 0
    (by norm_num) (by norm_num)
  exact ⟨by norm_num, by norm_num, h.1, h.2.1, h.2.2⟩

end CustomXrayUI
